import Mathlib

/-!
A shallow embedding of redish/proxy.py: the typed key-proxy (`Proxy`) over an
external Redis-like store, and its namespacing decorator (`Namespaced`).

The external store (the redis client) is modelled by `Store` together with the
command primitives the proxy invokes (type query, GET/SET, DEL, EXISTS, KEYS,
RPUSH, SADD, HMSET, ZADD, pipelined execution).  The typed handles produced by
redish.types are modelled as tagged views of a key (`GetResult.handle`); their
read-back contents (`Handle.listContents` and friends) are modelled from the
spec, since redish/types.py is not part of the sources under verification.
-/

/-- Association-list lookup keyed by strings (Python dict lookup; also the
store's keyspace and hash/zset member lookup). -/
def alookup {β : Type} : List (String × β) → String → Option β
  | [], _ => Option.none
  | kv :: rest, key => if kv.1 = key then some kv.2 else alookup rest key

/-- Association-list deletion of every binding of a key (Python dict `del`;
store key deletion). -/
def aerase {β : Type} : List (String × β) → String → List (String × β)
  | [], _ => []
  | kv :: rest, key => if kv.1 = key then aerase rest key else kv :: aerase rest key

/-- Association-list single-field update: replace the binding in place when the
key is present, append it otherwise (Redis HSET-field / ZADD-member update). -/
def aset {β : Type} (l : List (String × β)) (key : String) (v : β) : List (String × β) :=
  if (alookup l key).isSome then
    l.map (fun kv => if kv.1 = key then (key, v) else kv)
  else l ++ [(key, v)]

/-- A value resident in the external store.  Container elements are kept in
their serialized (string) form, as the client transmits them. -/
inductive RVal : Type
  | str (s : String)
  | list (xs : List String)
  | set (xs : List String)
  | hash (fields : List (String × String))
  | zset (entries : List (String × Int))
  deriving DecidableEq, Repr

/-- Redis type tags, as returned by the TYPE command. -/
inductive RType : Type
  | string
  | list
  | set
  | zset
  | hash
  | none
  deriving DecidableEq, Repr

/-- Type tag of a stored value. -/
def RVal.rtype : RVal → RType
  | .str _ => .string
  | .list _ => .list
  | .set _ => .set
  | .hash _ => .hash
  | .zset _ => .zset

/-- Glob matching for the store's KEYS command, fuel-recursive so it reduces in
the kernel.  Covers the `*` and `?` metacharacters; the proxy never constructs
patterns itself, it only forwards caller-supplied ones to the client. -/
def globMatchFuel : Nat → List Char → List Char → Bool
  | 0, _, _ => false
  | _ + 1, [], [] => true
  | f + 1, '*' :: ps, [] => globMatchFuel f ps []
  | _ + 1, _ :: _, [] => false
  | _ + 1, [], _ :: _ => false
  | f + 1, '*' :: ps, c :: cs =>
      globMatchFuel f ps (c :: cs) || globMatchFuel f ('*' :: ps) cs
  | f + 1, '?' :: ps, _ :: cs => globMatchFuel f ps cs
  | f + 1, p :: ps, c :: cs => p == c && globMatchFuel f ps cs

/-- Whether a key matches a glob pattern.  Each recursive step of
`globMatchFuel` shrinks the combined length, so this fuel always suffices. -/
def globMatch (pattern s : String) : Bool :=
  globMatchFuel (pattern.length + s.length + 1) pattern.data s.data

/-- The external store: a finite keyspace of typed values.  Earlier bindings
shadow later ones; the operations below never create duplicate keys. -/
structure Store : Type where
  entries : List (String × RVal)
  deriving DecidableEq, Repr

/-- Store read of a key's value. -/
def Store.lookup (st : Store) (k : String) : Option RVal :=
  alookup st.entries k

/-- The TYPE command. -/
def Store.typeOf (st : Store) (k : String) : RType :=
  match st.lookup k with
  | some v => v.rtype
  | Option.none => RType.none

/-- The GET command: raw bytes of a string-typed key. -/
def Store.getStr (st : Store) (k : String) : Option String :=
  match st.lookup k with
  | some (.str s) => some s
  | _ => Option.none

/-- The EXISTS command. -/
def Store.existsKey (st : Store) (k : String) : Bool :=
  (st.lookup k).isSome

/-- The DEL command on a single key. -/
def Store.del (st : Store) (k : String) : Store :=
  ⟨aerase st.entries k⟩

/-- The DEL command on a batch of keys (one round trip). -/
def Store.delMany (st : Store) (ks : List String) : Store :=
  ⟨st.entries.filter (fun kv => !(ks.contains kv.1))⟩

/-- The SET command: bind a key to a string value, replacing any old value. -/
def Store.setStr (st : Store) (k : String) (s : String) : Store :=
  ⟨(k, RVal.str s) :: aerase st.entries k⟩

/-- The KEYS command: every distinct key currently matching the pattern. -/
def Store.keys (st : Store) (pattern : String) : List String :=
  (st.entries.map Prod.fst).dedup.filter (fun k => globMatch pattern k)

/-- The RPUSH command.  On a key of the wrong type the real server errors; the
proxy only pushes after deleting the key, so that case never arises and is
modelled as a no-op. -/
def Store.rpush (st : Store) (k : String) (item : String) : Store :=
  match st.lookup k with
  | some (.list xs) => ⟨(k, RVal.list (xs ++ [item])) :: aerase st.entries k⟩
  | Option.none => ⟨(k, RVal.list [item]) :: aerase st.entries k⟩
  | some _ => st

/-- The SADD command (wrong-type case as in `Store.rpush`). -/
def Store.sadd (st : Store) (k : String) (item : String) : Store :=
  match st.lookup k with
  | some (.set xs) =>
      if xs.contains item then st
      else ⟨(k, RVal.set (xs ++ [item])) :: aerase st.entries k⟩
  | Option.none => ⟨(k, RVal.set [item]) :: aerase st.entries k⟩
  | some _ => st

/-- The HMSET command: set all given fields at once (wrong-type case as in
`Store.rpush`). -/
def Store.hmset (st : Store) (k : String) (fields : List (String × String)) : Store :=
  match st.lookup k with
  | some (.hash fs) =>
      ⟨(k, RVal.hash (fields.foldl (fun acc fv => aset acc fv.1 fv.2) fs)) :: aerase st.entries k⟩
  | Option.none =>
      ⟨(k, RVal.hash (fields.foldl (fun acc fv => aset acc fv.1 fv.2) [])) :: aerase st.entries k⟩
  | some _ => st

/-- The ZADD command: set one member's score (wrong-type case as in
`Store.rpush`). -/
def Store.zadd (st : Store) (k : String) (member : String) (score : Int) : Store :=
  match st.lookup k with
  | some (.zset es) => ⟨(k, RVal.zset (aset es member score)) :: aerase st.entries k⟩
  | Option.none => ⟨(k, RVal.zset (aset ([] : List (String × Int)) member score)) :: aerase st.entries k⟩
  | some _ => st

/-- A command queued on a pipeline by `Proxy.__setitem__` / `__delitem__`. -/
inductive Cmd : Type
  | del (key : String)
  | rpush (key item : String)
  | sadd (key item : String)
  | hmset (key : String) (fields : List (String × String))
  | zadd (key member : String) (score : Int)
  deriving DecidableEq, Repr

/-- Effect of a single pipelined command on the store. -/
def Cmd.applyTo (st : Store) : Cmd → Store
  | .del k => st.del k
  | .rpush k item => st.rpush k item
  | .sadd k item => st.sadd k item
  | .hmset k fields => st.hmset k fields
  | .zadd k member score => st.zadd k member score

/-- `pipeline().…execute()`: the queued commands applied in order as one
batched unit. -/
def execPipeline (st : Store) (cmds : List Cmd) : Store :=
  cmds.foldl Cmd.applyTo st

/-- The container-handle classes of redish.types that the proxy dispatches to
(types.List, types.Set, types.Dict, types.SortedSet). -/
inductive ContainerKind : Type
  | list
  | set
  | dict
  | zset
  deriving DecidableEq, Repr

/-- TYPE_MAP: store type tag to handle class. -/
def TYPE_MAP : RType → Option ContainerKind
  | .list => some .list
  | .set => some .set
  | .zset => some .zset
  | .hash => some .dict
  | _ => Option.none

/-- A Python value assigned through `Proxy.__setitem__`.  Container elements
are kept in their serialized (string) form; `int` also covers types.Int
handles (the code treats them identically), `list`/`set`/`dict`/`zset`
likewise cover the corresponding redish.types handles; `pynone` is Python's
None; `other` is any value of a type with no entry in the dispatch (for
example a float or tuple), recording only whether it is falsy. -/
inductive PyVal : Type
  | int (n : Int)
  | str (s : String)
  | list (xs : List String)
  | set (xs : List String)
  | dict (fields : List (String × String))
  | zset (entries : List (String × Int))
  | pynone
  | other (falsy : Bool)
  deriving DecidableEq, Repr

/-- Python truthiness (`not value` in `__setitem__`). -/
def PyVal.isFalsy : PyVal → Bool
  | .int n => n == 0
  | .str s => s == ""
  | .list xs => xs.isEmpty
  | .set xs => xs.isEmpty
  | .dict fs => fs.isEmpty
  | .zset es => es.isEmpty
  | .pynone => true
  | .other f => f

/-- REV_TYPE_MAP: the runtime type of an assigned value to the placeholder
handle class registered for it (keys: list, set, dict, types.ZSet). -/
def REV_TYPE_MAP : PyVal → Option ContainerKind
  | .list _ => some .list
  | .set _ => some .set
  | .dict _ => some .dict
  | .zset _ => some .zset
  | _ => Option.none

/-- Decimal digit value of a character, if it is one. -/
def charToDigit? (c : Char) : Option Nat :=
  if 48 ≤ c.toNat ∧ c.toNat ≤ 57 then some (c.toNat - 48) else Option.none

/-- Parse a non-empty all-digit character list, most significant first. -/
def natParseChars (cs : List Char) : Option Nat :=
  if cs.isEmpty then Option.none
  else
    cs.foldl
      (fun acc c =>
        match acc, charToDigit? c with
        | some a, some d => some (a * 10 + d)
        | _, _ => Option.none)
      (some 0)

/-- Python's `int()` on a decoded string, restricted to the canonical forms
the proxy itself writes: an optional sign followed by digits.  (Python also
strips surrounding whitespace; the proxy never stores such strings.) -/
def intParse (s : String) : Option Int :=
  match s.data with
  | [] => Option.none
  | c :: rest =>
      if c = '-' then (natParseChars rest).map (fun n => -(n : Int))
      else if c = '+' then (natParseChars rest).map (fun n => (n : Int))
      else (natParseChars (c :: rest)).map (fun n => (n : Int))

/-- Character of a decimal digit. -/
def digitToChar (d : Nat) : Char :=
  Char.ofNat (48 + d)

/-- Decimal digits of a natural number, least significant first. -/
def natToRevDigits (n : Nat) : List Nat :=
  if h : n < 10 then [n]
  else n % 10 :: natToRevDigits (n / 10)
termination_by n
decreasing_by
  exact Nat.div_lt_self (by omega) (by omega)

/-- Python's `str()` on a natural number. -/
def natRepr (n : Nat) : List Char :=
  ((natToRevDigits n).map digitToChar).reverse

/-- Python's `str()` on an integer (what `self.set(key, int(value))`
transmits). -/
def intRepr (i : Int) : String :=
  if i < 0 then ⟨'-' :: natRepr (-i).toNat⟩ else ⟨natRepr i.toNat⟩

/-- What an item access on the proxy hands back: a types.Int handle, decoded
text, a container handle of TYPE_MAP's class bound to the key, or the sequence
yielded by pattern iteration. -/
inductive GetResult : Type
  | intHandle (key : String)
  | text (s : String)
  | handle (kind : ContainerKind) (key : String)
  | multi (rs : List GetResult)

/-- Whether a result is a typed handle (an in-process view object bound to a
key), as opposed to decoded text or a yielded sequence. -/
def GetResult.isHandle : GetResult → Bool
  | .intHandle _ => true
  | .handle _ _ => true
  | _ => false

/-- int_or_str: try the integer parse on the raw bytes of a string-typed key;
on success return a types.Int handle bound to the key, otherwise the decoded
text itself. -/
def int_or_str (thing : String) (key : String) : GetResult :=
  match intParse thing with
  | some _ => GetResult.intHandle key
  | Option.none => GetResult.text thing

/-- A key passed to the proxy: a plain string, or a Glob-marked pattern. -/
inductive PKey : Type
  | str (s : String)
  | glob (g : String)
  deriving DecidableEq, Repr

/-- The proxy's state: the backing store plus the process-local empties
registry mapping a key to the placeholder handle registered for it. -/
structure ProxyState : Type where
  store : Store
  empties : List (String × ContainerKind)
  deriving DecidableEq, Repr

/-- `self.empties.pop(key)` guarded by membership. -/
def ProxyState.dropEmpty (st : ProxyState) (k : String) : ProxyState :=
  ⟨st.store, aerase st.empties k⟩

/-- `Proxy.__getitem__` on a non-pattern key, split on the stored value:
the string branch returns before the empties registry is consulted; a
container type drops any stale registry entry and returns the TYPE_MAP
handle; with no stored value the registered placeholder is returned if
present, else KeyError. -/
def Proxy.getitemStr (st : ProxyState) (k : String) : Except String (GetResult × ProxyState) :=
  match st.store.lookup k with
  | some (.str s) => .ok (int_or_str s k, st)
  | some (.list _) => .ok (.handle .list k, st.dropEmpty k)
  | some (.set _) => .ok (.handle .set k, st.dropEmpty k)
  | some (.hash _) => .ok (.handle .dict k, st.dropEmpty k)
  | some (.zset _) => .ok (.handle .zset k, st.dropEmpty k)
  | Option.none =>
      match alookup st.empties k with
      | some kind => .ok (.handle kind k, st)
      | Option.none => .error ("KeyError: " ++ k)

/-- The body of `Proxy.multikey` over an explicit key list: yield the item
access of each key in turn, threading the proxy state. -/
def Proxy.multikeyOver (st : ProxyState) : List String → Except String (List GetResult × ProxyState)
  | [] => .ok ([], st)
  | k :: rest => do
      let (r, st1) ← Proxy.getitemStr st k
      let (rs, st2) ← Proxy.multikeyOver st1 rest
      .ok (r :: rs, st2)

/-- `Proxy.multikey`: item access of every key currently matching the
pattern. -/
def Proxy.multikey (st : ProxyState) (pattern : String) : Except String (List GetResult × ProxyState) :=
  Proxy.multikeyOver st (st.store.keys pattern)

/-- `Proxy.__getitem__`: a Glob key dispatches to `multikey`, anything else is
a single-key access. -/
def Proxy.getitem (st : ProxyState) : PKey → Except String (GetResult × ProxyState)
  | .glob g => do
      let (rs, st1) ← Proxy.multikey st g
      .ok (.multi rs, st1)
  | .str k => Proxy.getitemStr st k

/-- The per-element mutations `Proxy.__setitem__` queues on the pipeline for a
container value; a value matching no isinstance branch queues nothing. -/
def elementCmds (k : String) : PyVal → List Cmd
  | .list xs => xs.map (Cmd.rpush k)
  | .set xs => xs.map (Cmd.sadd k)
  | .dict fs => [Cmd.hmset k fs]
  | .zset es => es.map (fun p => Cmd.zadd k p.1 p.2)
  | _ => []

/-- `Proxy.__setitem__`.  Returns the state reached together with the error
raised, if any (Python mutates up to the point of the raise). -/
def Proxy.setitem (st : ProxyState) (k : String) (v : PyVal) : ProxyState × Option String :=
  let st0 : ProxyState := ⟨st.store, aerase st.empties k⟩
  match v with
  | .int n => (⟨st0.store.setStr k (intRepr n), st0.empties⟩, Option.none)
  | .str s => (⟨st0.store.setStr k s, st0.empties⟩, Option.none)
  | v =>
    if v.isFalsy then
      let st1 : ProxyState :=
        if st0.store.existsKey k then ⟨st0.store.del k, st0.empties⟩ else st0
      match v with
      | .pynone => (st1, Option.none)
      | v =>
          match REV_TYPE_MAP v with
          | some kind => (⟨st1.store, (k, kind) :: st1.empties⟩, Option.none)
          | Option.none => (st1, some "KeyError: unsupported type")
    else
      let cmds := (if st0.store.existsKey k then [Cmd.del k] else []) ++ elementCmds k v
      (⟨execPipeline st0.store cmds, st0.empties⟩, Option.none)

/-- `Proxy.__contains__`: the store's existence check or the empties
registry. -/
def Proxy.contains (st : ProxyState) (k : String) : Bool :=
  st.store.existsKey k || (alookup st.empties k).isSome

/-- The keys `Proxy.__delitem__` resolves its argument to. -/
def resolvedKeys (st : ProxyState) : PKey → List String
  | .glob g => st.store.keys g
  | .str s => [s]

/-- `Proxy.__delitem__`: resolve the argument, drop each resolved key from the
empties registry, then one batched store delete of all of them.  The client
errors on a delete with no keys (a pattern matching nothing); the registry
removals have already happened by then. -/
def Proxy.delitem (st : ProxyState) (kp : PKey) : ProxyState × Option String :=
  let keys := resolvedKeys st kp
  let empties1 := keys.foldl (fun e key => aerase e key) st.empties
  if keys.isEmpty then (⟨st.store, empties1⟩, some "wrong number of arguments")
  else (⟨st.store.delMany keys, empties1⟩, Option.none)

/-- A namespace template: a format string with exactly one substitution slot,
split around that slot. -/
structure Template : Type where
  pre : String
  post : String
  deriving DecidableEq, Repr

/-- `self.formatstring % key`. -/
def Template.format (t : Template) (k : String) : String :=
  t.pre ++ k ++ t.post

/-- `Namespaced.__getitem__`: forward to the proxy with the expanded key. -/
def Namespaced.getitem (t : Template) (st : ProxyState) (k : String) : Except String (GetResult × ProxyState) :=
  Proxy.getitem st (.str (t.format k))

/-- `Namespaced.__setitem__`: forward to the proxy with the expanded key. -/
def Namespaced.setitem (t : Template) (st : ProxyState) (k : String) (v : PyVal) : ProxyState × Option String :=
  Proxy.setitem st (t.format k) v

/-- `Namespaced.__contains__`: forward to the proxy with the expanded key. -/
def Namespaced.contains (t : Template) (st : ProxyState) (k : String) : Bool :=
  Proxy.contains st (t.format k)

/-- The body the source writes for item deletion on the view. -/
def Namespaced.delitemMangled (t : Template) (st : ProxyState) (k : String) : ProxyState × Option String :=
  Proxy.delitem st (.str (t.format k))

/-- The item-deletion hook of the Namespaced class.  The source binds its
lambda to the name with two leading and no trailing underscores, which Python
name-mangles to a private attribute of the class; no hook with the special
method name exists, and implicit special-method lookup on a new-style class
does not fall back to the getattr delegation, so item deletion on the view
raises a TypeError instead of running `Namespaced.delitemMangled`. -/
def Namespaced.delitemHook : Option (Template → ProxyState → String → ProxyState × Option String) :=
  Option.none

/-- `Namespaced.multikey`: the supplied pattern goes to the underlying
proxy's key listing unformatted; each listed key is then expanded through the
template before the per-key access. -/
def Namespaced.multikey (t : Template) (st : ProxyState) (pattern : String) : Except String (List GetResult × ProxyState) :=
  Proxy.multikeyOver st ((st.store.keys pattern).map t.format)

/-- Modelled from the spec: redish/types.py is not among the sources; per the
spec a typed handle is a view object bound to (key, connection), so a list
handle presents the stored list's elements. -/
def Handle.listContents (store : Store) (k : String) : List String :=
  match store.lookup k with
  | some (.list xs) => xs
  | _ => []

/-- Modelled from the spec: contents a set handle presents (see
`Handle.listContents`). -/
def Handle.setContents (store : Store) (k : String) : List String :=
  match store.lookup k with
  | some (.set xs) => xs
  | _ => []

/-- Modelled from the spec: contents a dict handle presents (see
`Handle.listContents`). -/
def Handle.dictContents (store : Store) (k : String) : List (String × String) :=
  match store.lookup k with
  | some (.hash fs) => fs
  | _ => []

/-- Modelled from the spec: contents a sorted-set handle presents (see
`Handle.listContents`). -/
def Handle.zsetContents (store : Store) (k : String) : List (String × Int) :=
  match store.lookup k with
  | some (.zset es) => es
  | _ => []

/-- Modelled from the spec: the integer a types.Int handle bound to a key
compares equal to — the stored string decoded through the integer parse. -/
def Handle.intValue (store : Store) (k : String) : Option Int :=
  (store.getStr k).bind intParse

/-- The container value a handle of a given kind presents at a key, read back
as a Python value for the round-trip comparison. -/
def readContents (store : Store) (k : String) : ContainerKind → PyVal
  | .list => .list (Handle.listContents store k)
  | .set => .set (Handle.setContents store k)
  | .dict => .dict (Handle.dictContents store k)
  | .zset => .zset (Handle.zsetContents store k)

/-- What a single-key access yields for a key the store binds to a value:
depends only on the stored value, never on the empties registry. -/
def viewOf : RVal → String → GetResult
  | .str s, k => int_or_str s k
  | .list _, k => .handle .list k
  | .set _, k => .handle .set k
  | .hash _, k => .handle .dict k
  | .zset _, k => .handle .zset k

/-- The inherent well-formedness of the assigned Python containers: a Python
set has no duplicate elements, a dict and a sorted set no duplicate keys. -/
def ContainerNodup : PyVal → Prop
  | .set xs => xs.Nodup
  | .dict fs => (fs.map Prod.fst).Nodup
  | .zset es => (es.map Prod.fst).Nodup
  | _ => True

instance : DecidablePred ContainerNodup := fun v =>
  match v with
  | .set xs => (inferInstance : Decidable xs.Nodup)
  | .dict fs => (inferInstance : Decidable (fs.map Prod.fst).Nodup)
  | .zset es => (inferInstance : Decidable (es.map Prod.fst).Nodup)
  | .int _ => (inferInstance : Decidable True)
  | .str _ => (inferInstance : Decidable True)
  | .list _ => (inferInstance : Decidable True)
  | .pynone => (inferInstance : Decidable True)
  | .other _ => (inferInstance : Decidable True)

/-! ### Association-list lemmas -/

theorem alookup_aerase_self {β : Type} (l : List (String × β)) (k : String) :
    alookup (aerase l k) k = Option.none := by
  induction l with
  | nil => rfl
  | cons kv rest ih =>
      by_cases h : kv.1 = k
      · simpa [aerase, h] using ih
      · simpa [aerase, h, alookup] using ih

theorem alookup_aerase_ne {β : Type} (l : List (String × β)) (j k : String) (h : j ≠ k) :
    alookup (aerase l k) j = alookup l j := by
  induction l with
  | nil => rfl
  | cons kv rest ih =>
      by_cases hk : kv.1 = k
      · have hj : ¬ kv.1 = j := fun hh => h (by rw [← hh, hk])
        simpa [aerase, hk, alookup, hj, Ne.symm h] using ih
      · simp [aerase, hk, alookup, ih]

theorem alookup_append_of_none {β : Type} (l1 l2 : List (String × β)) (k : String)
    (h : alookup l1 k = Option.none) :
    alookup (l1 ++ l2) k = alookup l2 k := by
  induction l1 with
  | nil => rfl
  | cons kv rest ih =>
      by_cases hk : kv.1 = k
      · simp [alookup, hk] at h
      · simp [alookup, hk] at h ⊢
        exact ih h

theorem aset_of_none {β : Type} (l : List (String × β)) (k : String) (v : β)
    (h : alookup l k = Option.none) :
    aset l k v = l ++ [(k, v)] := by
  simp [aset, h]

theorem alookup_isSome_of_mem {β : Type} (l : List (String × β)) (k : String)
    (h : k ∈ l.map Prod.fst) : (alookup l k).isSome := by
  induction l with
  | nil => simp at h
  | cons kv rest ih =>
      by_cases hk : kv.1 = k
      · simp [alookup, hk]
      · have hrest : k ∈ rest.map Prod.fst := by
          rcases List.mem_map.mp h with ⟨p, hp, hpk⟩
          rcases List.mem_cons.mp hp with h1 | h1
          · exact absurd (h1 ▸ hpk) hk
          · exact List.mem_map.mpr ⟨p, h1, hpk⟩
        simp [alookup, hk, ih hrest]

theorem alookup_none_of_not_mem {β : Type} (l : List (String × β)) (k : String)
    (h : k ∉ l.map Prod.fst) : alookup l k = Option.none := by
  induction l with
  | nil => rfl
  | cons kv rest ih =>
      have hk : ¬ kv.1 = k := fun hh => h (List.mem_map.mpr ⟨kv, List.mem_cons_self kv rest, hh⟩)
      have hrest : k ∉ rest.map Prod.fst := by
        intro hh
        rcases List.mem_map.mp hh with ⟨p, hp, he⟩
        exact h (List.mem_map.mpr ⟨p, List.mem_cons_of_mem kv hp, he⟩)
      simp [alookup, hk, ih hrest]

theorem foldl_aset_append {β : Type} (fs : List (String × β)) (acc : List (String × β))
    (hdisj : ∀ f ∈ fs.map Prod.fst, alookup acc f = Option.none)
    (hnd : (fs.map Prod.fst).Nodup) :
    fs.foldl (fun a p => aset a p.1 p.2) acc = acc ++ fs := by
  induction fs generalizing acc with
  | nil => simp
  | cons p rest ih =>
      have h0 : alookup acc p.1 = Option.none := hdisj p.1 (by simp)
      have hstep : aset acc p.1 p.2 = acc ++ [(p.1, p.2)] := aset_of_none _ _ _ h0
      have hnd2 : p.1 ∉ rest.map Prod.fst ∧ (rest.map Prod.fst).Nodup := by
        rw [List.map_cons] at hnd
        exact List.nodup_cons.mp hnd
      have hdisj2 : ∀ f ∈ rest.map Prod.fst, alookup (acc ++ [(p.1, p.2)]) f = Option.none := by
        intro f hf
        have hacc : alookup acc f = Option.none := hdisj f (by simp [hf])
        rw [alookup_append_of_none _ _ _ hacc]
        have hne : ¬ p.1 = f := fun hh => hnd2.1 (hh ▸ hf)
        simp [alookup, hne]
      simp only [List.foldl_cons, hstep]
      rw [ih _ hdisj2 hnd2.2]
      simp

theorem foldl_aerase_mono {β : Type} (ks : List String) (e : List (String × β)) (k : String)
    (h : alookup e k = Option.none) :
    alookup (ks.foldl (fun e key => aerase e key) e) k = Option.none := by
  induction ks generalizing e with
  | nil => exact h
  | cons j rest ih =>
      simp only [List.foldl_cons]
      apply ih
      by_cases hk : k = j
      · subst hk; exact alookup_aerase_self e k
      · rw [alookup_aerase_ne e k j hk]; exact h

theorem foldl_aerase_of_mem {β : Type} (ks : List String) (e : List (String × β)) (k : String)
    (h : k ∈ ks) :
    alookup (ks.foldl (fun e key => aerase e key) e) k = Option.none := by
  induction ks generalizing e with
  | nil => simp at h
  | cons j rest ih =>
      simp only [List.foldl_cons]
      rcases List.mem_cons.mp h with h | h
      · subst h
        exact foldl_aerase_mono rest _ k (alookup_aerase_self e k)
      · exact ih _ h

/-! ### Store and pipeline lemmas -/

theorem Store.lookup_del_self (st : Store) (k : String) :
    (st.del k).lookup k = Option.none :=
  alookup_aerase_self _ _

theorem alookup_filter_not_contains {β : Type} (l : List (String × β)) (ks : List String)
    (k : String) (h : k ∈ ks) :
    alookup (l.filter (fun kv => !(ks.contains kv.1))) k = Option.none := by
  induction l with
  | nil => rfl
  | cons kv rest ih =>
      by_cases hc : kv.1 ∈ ks
      · simp [List.filter_cons, hc]
        simpa using ih
      · have hk : ¬ kv.1 = k := fun hh => hc (by rw [hh]; exact h)
        simp [List.filter_cons, hc, alookup, hk]
        simpa using ih

theorem Store.lookup_delMany_of_mem (st : Store) (ks : List String) (k : String) (h : k ∈ ks) :
    (st.delMany ks).lookup k = Option.none :=
  alookup_filter_not_contains st.entries ks k h

theorem Store.lookup_none_of_not_existsKey (st : Store) (k : String)
    (h : st.existsKey k = false) : st.lookup k = Option.none := by
  cases hh : st.lookup k with
  | none => rfl
  | some v => simp [Store.existsKey, hh] at h

theorem execPipeline_append (st : Store) (a b : List Cmd) :
    execPipeline st (a ++ b) = execPipeline (execPipeline st a) b := by
  simp [execPipeline, List.foldl_append]

theorem exec_delCmds_lookup (store : Store) (k : String) :
    (execPipeline store (if store.existsKey k then [Cmd.del k] else [])).lookup k = Option.none := by
  by_cases h : store.existsKey k
  · simp [h, execPipeline, Cmd.applyTo, Store.lookup_del_self]
  · have h0 : store.existsKey k = false := by simpa using h
    simp [execPipeline, h0]
    exact Store.lookup_none_of_not_existsKey store k h0

theorem rpush_foldl (k : String) (xs : List String) :
    ∀ (st : Store) (acc : List String), st.lookup k = some (RVal.list acc) →
      ((xs.foldl (fun s x => s.rpush k x) st).lookup k) = some (RVal.list (acc ++ xs)) := by
  induction xs with
  | nil => intro st acc h; simpa using h
  | cons x rest ih =>
      intro st acc h
      have h2 : alookup st.entries k = some (RVal.list acc) := h
      have hstep : (st.rpush k x).lookup k = some (RVal.list (acc ++ [x])) := by
        simp [Store.rpush, h2, Store.lookup, alookup]
      simp only [List.foldl_cons]
      simpa [List.append_assoc] using ih _ _ hstep

theorem rpush_foldl_create (k x : String) (rest : List String) (st : Store)
    (h : st.lookup k = Option.none) :
    (((x :: rest).foldl (fun s x => s.rpush k x) st).lookup k) = some (RVal.list (x :: rest)) := by
  simp only [List.foldl_cons]
  have h2 : alookup st.entries k = Option.none := h
  have hstep : (st.rpush k x).lookup k = some (RVal.list [x]) := by
    simp [Store.rpush, h2, Store.lookup, alookup]
  simpa using rpush_foldl k rest _ _ hstep

theorem sadd_foldl (k : String) (xs : List String) :
    ∀ (st : Store) (acc : List String), st.lookup k = some (RVal.set acc) →
      (∀ x ∈ xs, x ∉ acc) → xs.Nodup →
      ((xs.foldl (fun s x => s.sadd k x) st).lookup k) = some (RVal.set (acc ++ xs)) := by
  induction xs with
  | nil => intro st acc h _ _; simpa using h
  | cons x rest ih =>
      intro st acc h hdisj hnd
      have hx : x ∉ acc := hdisj x (by simp)
      have h2 : alookup st.entries k = some (RVal.set acc) := h
      have hstep : (st.sadd k x).lookup k = some (RVal.set (acc ++ [x])) := by
        simp [Store.sadd, h2, hx, Store.lookup, alookup]
      have hnd2 := List.nodup_cons.mp hnd
      have hdisj2 : ∀ y ∈ rest, y ∉ acc ++ [x] := by
        intro y hy
        simp only [List.mem_append, List.mem_singleton]
        rintro (hya | rfl)
        · exact hdisj y (by simp [hy]) hya
        · exact hnd2.1 hy
      simp only [List.foldl_cons]
      simpa [List.append_assoc] using ih _ _ hstep hdisj2 hnd2.2

theorem zadd_foldl (k : String) (es : List (String × Int)) :
    ∀ (st : Store) (acc : List (String × Int)), st.lookup k = some (RVal.zset acc) →
      (∀ p ∈ es, alookup acc p.1 = Option.none) → (es.map Prod.fst).Nodup →
      ((es.foldl (fun s p => s.zadd k p.1 p.2) st).lookup k) = some (RVal.zset (acc ++ es)) := by
  induction es with
  | nil => intro st acc h _ _; simpa using h
  | cons p rest ih =>
      intro st acc h hdisj hnd
      have hp : alookup acc p.1 = Option.none := hdisj p (by simp)
      have h2 : alookup st.entries k = some (RVal.zset acc) := h
      have hstep : (st.zadd k p.1 p.2).lookup k = some (RVal.zset (acc ++ [p])) := by
        simp [Store.zadd, h2, aset_of_none _ _ _ hp, Store.lookup, alookup]
      have hnd2 : p.1 ∉ rest.map Prod.fst ∧ (rest.map Prod.fst).Nodup := by
        rw [List.map_cons] at hnd
        exact List.nodup_cons.mp hnd
      have hdisj2 : ∀ q ∈ rest, alookup (acc ++ [p]) q.1 = Option.none := by
        intro q hq
        rw [alookup_append_of_none _ _ _ (hdisj q (by simp [hq]))]
        have hne : ¬ p.1 = q.1 := fun hh => hnd2.1 (hh ▸ List.mem_map.mpr ⟨q, hq, rfl⟩)
        simp [alookup, hne]
      simp only [List.foldl_cons]
      simpa [List.append_assoc] using ih _ _ hstep hdisj2 hnd2.2

theorem hmset_lookup_none (st : Store) (k : String) (fields : List (String × String))
    (h : st.lookup k = Option.none) (hnd : (fields.map Prod.fst).Nodup) :
    (st.hmset k fields).lookup k = some (RVal.hash fields) := by
  have hfold : fields.foldl (fun acc fv => aset acc fv.1 fv.2) [] = fields := by
    simpa using foldl_aset_append fields [] (fun f _ => rfl) hnd
  have h2 : alookup st.entries k = Option.none := h
  simp [Store.hmset, h2, hfold, Store.lookup, alookup]

/-! ### Item-access lemmas -/

theorem getitemStr_of_lookup_some (st : ProxyState) (k : String) (v : RVal)
    (h : st.store.lookup k = some v) :
    ∃ st2, Proxy.getitemStr st k = .ok (viewOf v k, st2) ∧ st2.store = st.store := by
  cases v with
  | str s => exact ⟨st, by simp [Proxy.getitemStr, h, viewOf], rfl⟩
  | list xs => exact ⟨st.dropEmpty k, by simp [Proxy.getitemStr, h, viewOf], rfl⟩
  | set xs => exact ⟨st.dropEmpty k, by simp [Proxy.getitemStr, h, viewOf], rfl⟩
  | hash fs => exact ⟨st.dropEmpty k, by simp [Proxy.getitemStr, h, viewOf], rfl⟩
  | zset es => exact ⟨st.dropEmpty k, by simp [Proxy.getitemStr, h, viewOf], rfl⟩

theorem lookup_isSome_of_mem_keys (st : Store) (pattern k : String)
    (h : k ∈ st.keys pattern) : (st.lookup k).isSome := by
  have h1 : k ∈ (st.entries.map Prod.fst).dedup := (List.mem_filter.mp h).1
  exact alookup_isSome_of_mem _ _ (List.mem_dedup.mp h1)

theorem multikeyOver_spec (ks : List String) :
    ∀ (st : ProxyState), (∀ k ∈ ks, (st.store.lookup k).isSome) →
      ∃ rs st2, Proxy.multikeyOver st ks = .ok (rs, st2) ∧ st2.store = st.store ∧
        List.Forall₂ (fun k r => ∃ v, st.store.lookup k = some v ∧ r = viewOf v k) ks rs := by
  induction ks with
  | nil => exact fun st _ => ⟨[], st, rfl, rfl, List.Forall₂.nil⟩
  | cons k rest ih =>
      intro st h
      have hk := h k (by simp)
      cases hv : st.store.lookup k with
      | none => rw [hv] at hk; simp at hk
      | some v =>
          obtain ⟨st1, hget, hst1⟩ := getitemStr_of_lookup_some st k v hv
          have hrest : ∀ j ∈ rest, (st1.store.lookup j).isSome := by
            intro j hj
            rw [hst1]
            exact h j (List.mem_cons_of_mem _ hj)
          obtain ⟨rs, st2, hmk, hst2, hfa⟩ := ih st1 hrest
          refine ⟨viewOf v k :: rs, st2, ?_, by rw [hst2, hst1], ?_⟩
          · simp [Proxy.multikeyOver, Bind.bind, Except.bind, hget, hmk]
          · refine List.Forall₂.cons ⟨v, hv, rfl⟩ ?_
            simpa [hst1] using hfa

/-! ### Decimal print/parse round trip -/

theorem charToDigit_digitToChar (d : Nat) (h : d < 10) :
    charToDigit? (digitToChar d) = some d := by
  interval_cases d <;> rfl

theorem digitToChar_ne_minus (d : Nat) (h : d < 10) : digitToChar d ≠ '-' := by
  interval_cases d <;> decide

theorem digitToChar_ne_plus (d : Nat) (h : d < 10) : digitToChar d ≠ '+' := by
  interval_cases d <;> decide

theorem natToRevDigits_ne_nil (n : Nat) : natToRevDigits n ≠ [] := by
  rw [natToRevDigits]
  split <;> simp

theorem natToRevDigits_lt (n : Nat) : ∀ d ∈ natToRevDigits n, d < 10 := by
  induction n using Nat.strong_induction_on with
  | _ n ih =>
      rw [natToRevDigits]
      split
      · intro d hd
        simp at hd
        omega
      · intro d hd
        rcases List.mem_cons.mp hd with h1 | h1
        · subst h1
          exact Nat.mod_lt _ (by omega)
        · exact ih (n / 10) (Nat.div_lt_self (by omega) (by omega)) d h1

theorem foldl_val_reverse_natToRevDigits (n : Nat) :
    (natToRevDigits n).reverse.foldl (fun x d => x * 10 + d) 0 = n := by
  induction n using Nat.strong_induction_on with
  | _ n ih =>
      rw [natToRevDigits]
      split
      · simp
      · rename_i h
        rw [List.reverse_cons, List.foldl_append,
          ih (n / 10) (Nat.div_lt_self (by omega) (by omega))]
        simp
        omega

theorem foldl_parse_digits (ds : List Nat) :
    ∀ (a : Nat), (∀ d ∈ ds, d < 10) →
      (ds.map digitToChar).foldl
          (fun acc c =>
            match acc, charToDigit? c with
            | some a, some d => some (a * 10 + d)
            | _, _ => Option.none)
          (some a)
        = some (ds.foldl (fun x d => x * 10 + d) a) := by
  induction ds with
  | nil => intro a _; rfl
  | cons d rest ih =>
      intro a h
      have hd : d < 10 := h d (by simp)
      simp only [List.map_cons, List.foldl_cons, charToDigit_digitToChar d hd]
      exact ih _ (fun x hx => h x (by simp [hx]))

theorem natParseChars_rev_digits (n : Nat) :
    natParseChars ((natToRevDigits n).reverse.map digitToChar) = some n := by
  have hne : (natToRevDigits n).reverse.map digitToChar ≠ [] := by
    simp [natToRevDigits_ne_nil n]
  have hlt : ∀ d ∈ (natToRevDigits n).reverse, d < 10 := by
    intro d hd
    exact natToRevDigits_lt n d (List.mem_reverse.mp hd)
  unfold natParseChars
  rw [if_neg (by simpa [List.isEmpty_iff] using hne)]
  rw [foldl_parse_digits _ 0 hlt, foldl_val_reverse_natToRevDigits n]

theorem natRepr_eq_map_reverse (n : Nat) :
    natRepr n = (natToRevDigits n).reverse.map digitToChar := by
  simp [natRepr, List.map_reverse]

theorem natParseChars_natRepr (n : Nat) : natParseChars (natRepr n) = some n := by
  rw [natRepr_eq_map_reverse]
  exact natParseChars_rev_digits n

theorem intParse_intRepr (i : Int) : intParse (intRepr i) = some i := by
  by_cases hneg : i < 0
  · have : intRepr i = ⟨'-' :: natRepr (-i).toNat⟩ := by simp [intRepr, hneg]
    rw [this]
    show intParse ⟨'-' :: natRepr (-i).toNat⟩ = some i
    unfold intParse
    simp only [natParseChars_natRepr]
    simp
    omega
  · have : intRepr i = ⟨natRepr i.toNat⟩ := by simp [intRepr, hneg]
    rw [this]
    unfold intParse
    cases hh : natRepr i.toNat with
    | nil =>
        have hne : natRepr i.toNat ≠ [] := by
          rw [natRepr_eq_map_reverse]
          simp [natToRevDigits_ne_nil]
        exact absurd hh hne
    | cons c rest =>
        have hmem : c ∈ natRepr i.toNat := by rw [hh]; simp
        obtain ⟨d, hd, hdc⟩ : ∃ d, d ∈ (natToRevDigits i.toNat).reverse ∧ digitToChar d = c := by
          rw [natRepr_eq_map_reverse] at hmem
          rcases List.mem_map.mp hmem with ⟨d, hd1, hd2⟩
          exact ⟨d, hd1, hd2⟩
        have hdlt : d < 10 := natToRevDigits_lt _ d (List.mem_reverse.mp hd)
        have hcm : ¬ c = '-' := fun hc => digitToChar_ne_minus d hdlt (hdc.trans hc)
        have hcp : ¬ c = '+' := fun hc => digitToChar_ne_plus d hdlt (hdc.trans hc)
        simp only [hcm, hcp, if_false]
        rw [← hh, natParseChars_natRepr]
        simp
        omega

/-! ### Further lemmas on the proxy operations -/

theorem setitem_registers_empty (st : ProxyState) (k : String) (v : PyVal) (kind : ContainerKind)
    (hkind : REV_TYPE_MAP v = some kind) (hfalsy : v.isFalsy = true) :
    ∃ store1, Proxy.setitem st k v = (⟨store1, (k, kind) :: aerase st.empties k⟩, Option.none) ∧
      store1.lookup k = Option.none := by
  have hnone : st.store.existsKey k = false → st.store.lookup k = Option.none :=
    Store.lookup_none_of_not_existsKey st.store k
  cases v with
  | list xs =>
      simp only [REV_TYPE_MAP, Option.some.injEq] at hkind
      subst hkind
      simp only [PyVal.isFalsy] at hfalsy
      by_cases hex : st.store.existsKey k
      · exact ⟨st.store.del k, by simp [Proxy.setitem, hex, PyVal.isFalsy, hfalsy, REV_TYPE_MAP],
          Store.lookup_del_self st.store k⟩
      · exact ⟨st.store, by simp [Proxy.setitem, hex, PyVal.isFalsy, hfalsy, REV_TYPE_MAP],
          hnone (by simpa using hex)⟩
  | set xs =>
      simp only [REV_TYPE_MAP, Option.some.injEq] at hkind
      subst hkind
      simp only [PyVal.isFalsy] at hfalsy
      by_cases hex : st.store.existsKey k
      · exact ⟨st.store.del k, by simp [Proxy.setitem, hex, PyVal.isFalsy, hfalsy, REV_TYPE_MAP],
          Store.lookup_del_self st.store k⟩
      · exact ⟨st.store, by simp [Proxy.setitem, hex, PyVal.isFalsy, hfalsy, REV_TYPE_MAP],
          hnone (by simpa using hex)⟩
  | dict fs =>
      simp only [REV_TYPE_MAP, Option.some.injEq] at hkind
      subst hkind
      simp only [PyVal.isFalsy] at hfalsy
      by_cases hex : st.store.existsKey k
      · exact ⟨st.store.del k, by simp [Proxy.setitem, hex, PyVal.isFalsy, hfalsy, REV_TYPE_MAP],
          Store.lookup_del_self st.store k⟩
      · exact ⟨st.store, by simp [Proxy.setitem, hex, PyVal.isFalsy, hfalsy, REV_TYPE_MAP],
          hnone (by simpa using hex)⟩
  | zset es =>
      simp only [REV_TYPE_MAP, Option.some.injEq] at hkind
      subst hkind
      simp only [PyVal.isFalsy] at hfalsy
      by_cases hex : st.store.existsKey k
      · exact ⟨st.store.del k, by simp [Proxy.setitem, hex, PyVal.isFalsy, hfalsy, REV_TYPE_MAP],
          Store.lookup_del_self st.store k⟩
      · exact ⟨st.store, by simp [Proxy.setitem, hex, PyVal.isFalsy, hfalsy, REV_TYPE_MAP],
          hnone (by simpa using hex)⟩
  | int n => simp [REV_TYPE_MAP] at hkind
  | str s => simp [REV_TYPE_MAP] at hkind
  | pynone => simp [REV_TYPE_MAP] at hkind
  | other b => simp [REV_TYPE_MAP] at hkind

/-! ### Claim theorems -/

/-- C5: for a non-pattern key with no stored value and no empties-registry
entry, item access fails with the missing-key error and returns no handle or
placeholder. -/
theorem c5_missing_key_error (st : ProxyState) (k : String)
    (hstore : st.store.lookup k = Option.none)
    (hemp : alookup st.empties k = Option.none) :
    Proxy.getitem st (.str k) = .error ("KeyError: " ++ k) := by
  simp [Proxy.getitem, Proxy.getitemStr, hstore, hemp]

/-- Witness for C5 at a concrete state. -/
theorem c5_missing_key_error_witness :
    Proxy.getitem ⟨⟨[("a", RVal.str "1")]⟩, [("b", ContainerKind.set)]⟩ (.str "c") =
      .error ("KeyError: " ++ "c") :=
  c5_missing_key_error ⟨⟨[("a", RVal.str "1")]⟩, [("b", ContainerKind.set)]⟩ "c" rfl rfl

/-- C2: assigning an empty list, set, or dict to a key deletes the key from the
store, records a placeholder of the matching container type in the empties
registry, makes containment true, and a subsequent item access returns the
registered placeholder of that type instead of failing. -/
theorem c2_empty_container_placeholder (st : ProxyState) (k : String) (v : PyVal)
    (kind : ContainerKind)
    (hv : v = PyVal.list [] ∨ v = PyVal.set [] ∨ v = PyVal.dict [])
    (hkind : REV_TYPE_MAP v = some kind) :
    (Proxy.setitem st k v).2 = Option.none ∧
    (Proxy.setitem st k v).1.store.existsKey k = false ∧
    alookup (Proxy.setitem st k v).1.empties k = some kind ∧
    Proxy.contains (Proxy.setitem st k v).1 k = true ∧
    Proxy.getitemStr (Proxy.setitem st k v).1 k =
      .ok (.handle kind k, (Proxy.setitem st k v).1) := by
  have hfalsy : v.isFalsy = true := by
    rcases hv with rfl | rfl | rfl <;> rfl
  obtain ⟨store1, heq, hlook⟩ := setitem_registers_empty st k v kind hkind hfalsy
  rw [heq]
  refine ⟨rfl, ?_, ?_, ?_, ?_⟩
  · simp [Store.existsKey, hlook]
  · simp [alookup]
  · simp [Proxy.contains, alookup]
  · simp [Proxy.getitemStr, hlook, alookup]

/-- Witness for C2: an empty dict at a fresh key on a populated state. -/
theorem c2_empty_container_placeholder_witness :
    (Proxy.setitem ⟨⟨[("x", RVal.str "5")]⟩, []⟩ "y" (PyVal.dict [])).2 = Option.none ∧
    (Proxy.setitem ⟨⟨[("x", RVal.str "5")]⟩, []⟩ "y" (PyVal.dict [])).1.store.existsKey "y" = false ∧
    alookup (Proxy.setitem ⟨⟨[("x", RVal.str "5")]⟩, []⟩ "y" (PyVal.dict [])).1.empties "y" =
      some ContainerKind.dict ∧
    Proxy.contains (Proxy.setitem ⟨⟨[("x", RVal.str "5")]⟩, []⟩ "y" (PyVal.dict [])).1 "y" = true ∧
    Proxy.getitemStr (Proxy.setitem ⟨⟨[("x", RVal.str "5")]⟩, []⟩ "y" (PyVal.dict [])).1 "y" =
      .ok (.handle ContainerKind.dict "y", (Proxy.setitem ⟨⟨[("x", RVal.str "5")]⟩, []⟩ "y" (PyVal.dict [])).1) :=
  c2_empty_container_placeholder ⟨⟨[("x", RVal.str "5")]⟩, []⟩ "y" (PyVal.dict [])
    ContainerKind.dict (Or.inr (Or.inr rfl)) rfl

/-- C3: the three item operations the view actually binds (get, set, contains)
forward to the underlying proxy with the template-expanded key; the
item-deletion hook, however, is absent from the class (the source's method name
is mangled away), so deletion through the view never reaches the proxy. -/
theorem c3_namespaced_forwarding (t : Template) (st : ProxyState) (k : String) (v : PyVal) :
    Namespaced.getitem t st k = Proxy.getitem st (.str (t.format k)) ∧
    Namespaced.setitem t st k v = Proxy.setitem st (t.format k) v ∧
    Namespaced.contains t st k = Proxy.contains st (t.format k) ∧
    Namespaced.delitemHook = Option.none :=
  ⟨rfl, rfl, rfl, rfl⟩

theorem setitem_other_spec (st : ProxyState) (k : String) :
    (Proxy.setitem st k (PyVal.other true)).2 = some "KeyError: unsupported type" ∧
    (Proxy.setitem st k (PyVal.other false)).2 = Option.none ∧
    (Proxy.setitem st k (PyVal.other false)).1.store =
      execPipeline st.store (if st.store.existsKey k then [Cmd.del k] else []) ∧
    (Proxy.setitem st k (PyVal.other false)).1.empties = aerase st.empties k := by
  refine ⟨?_, ?_, ?_, ?_⟩
  · by_cases hex : st.store.existsKey k <;> simp [Proxy.setitem, hex, REV_TYPE_MAP, PyVal.isFalsy]
  · by_cases hex : st.store.existsKey k <;> simp [Proxy.setitem, hex, PyVal.isFalsy, elementCmds]
  · by_cases hex : st.store.existsKey k <;>
      simp [Proxy.setitem, hex, PyVal.isFalsy, elementCmds, execPipeline, Cmd.applyTo]
  · by_cases hex : st.store.existsKey k <;> simp [Proxy.setitem, hex, PyVal.isFalsy, elementCmds]

/-- C4 counterexample: assigning a non-empty value of an unsupported type does
NOT fail — no isinstance branch matches, the pipeline executes without
mutation commands, and the assignment is silently dropped. -/
theorem c4_counterexample :
    Proxy.setitem ⟨⟨[]⟩, []⟩ "k" (PyVal.other false) = (⟨⟨[]⟩, []⟩, Option.none) :=
  rfl

/-- C4 (amended): assigning an empty unsupported-type value fails with the
key-lookup error at the REV_TYPE_MAP dispatch; assigning a non-empty
unsupported-type value raises nothing — the batch holds only the delete of any
existing value, so the key's old value is lost and the new one never stored. -/
theorem c4_unsupported_type (st : ProxyState) (k : String) :
    (Proxy.setitem st k (PyVal.other true)).2 = some "KeyError: unsupported type" ∧
    (Proxy.setitem st k (PyVal.other false)).2 = Option.none ∧
    (Proxy.setitem st k (PyVal.other false)).1.store =
      execPipeline st.store (if st.store.existsKey k then [Cmd.del k] else []) ∧
    (Proxy.setitem st k (PyVal.other false)).1.empties = aerase st.empties k :=
  setitem_other_spec st k

theorem setitem_not_both (st : ProxyState) (k : String) (v : PyVal) (st2 : ProxyState)
    (h : Proxy.setitem st k v = (st2, Option.none)) :
    st2.store.existsKey k = false ∨ alookup st2.empties k = Option.none := by
  cases v with
  | int n =>
      right
      have : st2.empties = aerase st.empties k := by
        simpa [Proxy.setitem] using (congrArg (fun p => p.1.empties) h).symm
      rw [this]
      exact alookup_aerase_self _ _
  | str s =>
      right
      have : st2.empties = aerase st.empties k := by
        simpa [Proxy.setitem] using (congrArg (fun p => p.1.empties) h).symm
      rw [this]
      exact alookup_aerase_self _ _
  | pynone =>
      right
      have : st2.empties = aerase st.empties k := by
        by_cases hex : st.store.existsKey k <;>
          simpa [Proxy.setitem, hex, PyVal.isFalsy] using (congrArg (fun p => p.1.empties) h).symm
      rw [this]
      exact alookup_aerase_self _ _
  | other b =>
      cases b with
      | true =>
          have : (Proxy.setitem st k (PyVal.other true)).2 = some "KeyError: unsupported type" :=
            (setitem_other_spec st k).1
          rw [h] at this
          simp at this
      | false =>
          right
          have : st2.empties = aerase st.empties k := by
            have h2 := (setitem_other_spec st k).2.2.2
            rw [h] at h2
            exact h2
          rw [this]
          exact alookup_aerase_self _ _
  | list xs =>
      by_cases he : xs.isEmpty
      · left
        obtain ⟨store1, heq, hlook⟩ :=
          setitem_registers_empty st k (PyVal.list xs) ContainerKind.list rfl (by simpa [PyVal.isFalsy] using he)
        rw [heq] at h
        have : st2.store = store1 := by
          simpa using congrArg (fun p => p.1.store) h.symm
        simp [Store.existsKey, this, hlook]
      · right
        have : st2.empties = aerase st.empties k := by
          by_cases hex : st.store.existsKey k <;>
            simpa [Proxy.setitem, PyVal.isFalsy, he, hex] using (congrArg (fun p => p.1.empties) h).symm
        rw [this]
        exact alookup_aerase_self _ _
  | set xs =>
      by_cases he : xs.isEmpty
      · left
        obtain ⟨store1, heq, hlook⟩ :=
          setitem_registers_empty st k (PyVal.set xs) ContainerKind.set rfl (by simpa [PyVal.isFalsy] using he)
        rw [heq] at h
        have : st2.store = store1 := by
          simpa using congrArg (fun p => p.1.store) h.symm
        simp [Store.existsKey, this, hlook]
      · right
        have : st2.empties = aerase st.empties k := by
          by_cases hex : st.store.existsKey k <;>
            simpa [Proxy.setitem, PyVal.isFalsy, he, hex] using (congrArg (fun p => p.1.empties) h).symm
        rw [this]
        exact alookup_aerase_self _ _
  | dict fs =>
      by_cases he : fs.isEmpty
      · left
        obtain ⟨store1, heq, hlook⟩ :=
          setitem_registers_empty st k (PyVal.dict fs) ContainerKind.dict rfl (by simpa [PyVal.isFalsy] using he)
        rw [heq] at h
        have : st2.store = store1 := by
          simpa using congrArg (fun p => p.1.store) h.symm
        simp [Store.existsKey, this, hlook]
      · right
        have : st2.empties = aerase st.empties k := by
          by_cases hex : st.store.existsKey k <;>
            simpa [Proxy.setitem, PyVal.isFalsy, he, hex] using (congrArg (fun p => p.1.empties) h).symm
        rw [this]
        exact alookup_aerase_self _ _
  | zset es =>
      by_cases he : es.isEmpty
      · left
        obtain ⟨store1, heq, hlook⟩ :=
          setitem_registers_empty st k (PyVal.zset es) ContainerKind.zset rfl (by simpa [PyVal.isFalsy] using he)
        rw [heq] at h
        have : st2.store = store1 := by
          simpa using congrArg (fun p => p.1.store) h.symm
        simp [Store.existsKey, this, hlook]
      · right
        have : st2.empties = aerase st.empties k := by
          by_cases hex : st.store.existsKey k <;>
            simpa [Proxy.setitem, PyVal.isFalsy, he, hex] using (congrArg (fun p => p.1.empties) h).symm
        rw [this]
        exact alookup_aerase_self _ _

/-- C6 counterexample: a key that holds a STRING value in the store and also
has an empties-registry entry.  Item access takes the string branch, which
returns before the registry is consulted: the access succeeds yet the key is
still present in both the store and the registry afterwards. -/
theorem c6_counterexample :
    Proxy.getitemStr ⟨⟨[("k", RVal.str "v")]⟩, [("k", ContainerKind.list)]⟩ "k" =
      .ok (GetResult.text "v", ⟨⟨[("k", RVal.str "v")]⟩, [("k", ContainerKind.list)]⟩) ∧
    Store.existsKey ⟨[("k", RVal.str "v")]⟩ "k" = true ∧
    (alookup [("k", ContainerKind.list)] "k").isSome = true :=
  ⟨rfl, rfl, rfl⟩

/-- C6 (amended): for every key simultaneously in the store and the registry,
access when the stored type is a CONTAINER type removes the registry entry
before returning the store-backed handle (the string branch, by contrast,
returns early and leaves the stale entry); assignment removes the entry before
dispatching, and after any successful assignment the key is not in both. -/
theorem c6_self_healing (st : ProxyState) (k : String) :
    (∀ v kind, st.store.lookup k = some v → TYPE_MAP v.rtype = some kind →
      Proxy.getitemStr st k = .ok (.handle kind k, st.dropEmpty k) ∧
      alookup (st.dropEmpty k).empties k = Option.none ∧
      (st.dropEmpty k).store = st.store) ∧
    (∀ v st2, Proxy.setitem st k v = (st2, Option.none) →
      ¬(st2.store.existsKey k = true ∧ (alookup st2.empties k).isSome = true)) := by
  constructor
  · intro v kind hv hkind
    cases v with
    | str s => simp [RVal.rtype, TYPE_MAP] at hkind
    | list xs =>
        simp only [RVal.rtype, TYPE_MAP, Option.some.injEq] at hkind
        subst hkind
        exact ⟨by simp [Proxy.getitemStr, hv], alookup_aerase_self _ _, rfl⟩
    | set xs =>
        simp only [RVal.rtype, TYPE_MAP, Option.some.injEq] at hkind
        subst hkind
        exact ⟨by simp [Proxy.getitemStr, hv], alookup_aerase_self _ _, rfl⟩
    | hash fs =>
        simp only [RVal.rtype, TYPE_MAP, Option.some.injEq] at hkind
        subst hkind
        exact ⟨by simp [Proxy.getitemStr, hv], alookup_aerase_self _ _, rfl⟩
    | zset es =>
        simp only [RVal.rtype, TYPE_MAP, Option.some.injEq] at hkind
        subst hkind
        exact ⟨by simp [Proxy.getitemStr, hv], alookup_aerase_self _ _, rfl⟩
  · intro v st2 h hboth
    rcases setitem_not_both st k v st2 h with hs | he
    · rw [hboth.1] at hs
      cases hs
    · rw [he] at hboth
      simp at hboth

/-- Witness for C6 at a concrete state: a list-typed key with a stale registry
entry is reconciled by access, and a successful assignment leaves the key in
only one place. -/
theorem c6_self_healing_witness :
    Proxy.getitemStr ⟨⟨[("k", RVal.list ["a"])]⟩, [("k", ContainerKind.set)]⟩ "k" =
      .ok (.handle ContainerKind.list "k",
        ProxyState.dropEmpty ⟨⟨[("k", RVal.list ["a"])]⟩, [("k", ContainerKind.set)]⟩ "k") ∧
    ¬((Proxy.setitem ⟨⟨[("k", RVal.list ["a"])]⟩, [("k", ContainerKind.set)]⟩ "k"
        (PyVal.int 3)).1.store.existsKey "k" = true ∧
      (alookup (Proxy.setitem ⟨⟨[("k", RVal.list ["a"])]⟩, [("k", ContainerKind.set)]⟩ "k"
        (PyVal.int 3)).1.empties "k").isSome = true) := by
  constructor
  · exact ((c6_self_healing ⟨⟨[("k", RVal.list ["a"])]⟩, [("k", ContainerKind.set)]⟩ "k").1
      (RVal.list ["a"]) ContainerKind.list rfl rfl).1
  · exact (c6_self_healing ⟨⟨[("k", RVal.list ["a"])]⟩, [("k", ContainerKind.set)]⟩ "k").2
      (PyVal.int 3) _ rfl

theorem sadd_foldl_create (k x : String) (rest : List String) (st : Store)
    (h : st.lookup k = Option.none) (hnd : (x :: rest).Nodup) :
    (((x :: rest).foldl (fun s y => s.sadd k y) st).lookup k) = some (RVal.set (x :: rest)) := by
  simp only [List.foldl_cons]
  have h2 : alookup st.entries k = Option.none := h
  have hstep : (st.sadd k x).lookup k = some (RVal.set [x]) := by
    simp [Store.sadd, h2, Store.lookup, alookup]
  have hnd2 := List.nodup_cons.mp hnd
  have hdisj : ∀ y ∈ rest, y ∉ [x] := by
    intro y hy
    simp only [List.mem_singleton]
    rintro rfl
    exact hnd2.1 hy
  simpa using sadd_foldl k rest _ _ hstep hdisj hnd2.2

theorem zadd_foldl_create (k : String) (p : String × Int) (rest : List (String × Int)) (st : Store)
    (h : st.lookup k = Option.none) (hnd : ((p :: rest).map Prod.fst).Nodup) :
    (((p :: rest).foldl (fun s q => s.zadd k q.1 q.2) st).lookup k) = some (RVal.zset (p :: rest)) := by
  simp only [List.foldl_cons]
  have h2 : alookup st.entries k = Option.none := h
  have hstep : (st.zadd k p.1 p.2).lookup k = some (RVal.zset [p]) := by
    simp [Store.zadd, aset, alookup, h2, Store.lookup]
  have hnd2 : p.1 ∉ rest.map Prod.fst ∧ (rest.map Prod.fst).Nodup := by
    rw [List.map_cons] at hnd
    exact List.nodup_cons.mp hnd
  have hdisj : ∀ q ∈ rest, alookup [p] q.1 = Option.none := by
    intro q hq
    have hne : ¬ p.1 = q.1 := fun hh => hnd2.1 (hh ▸ List.mem_map.mpr ⟨q, hq, rfl⟩)
    simp [alookup, hne]
  simpa using zadd_foldl k rest _ _ hstep hdisj hnd2.2

/-- C1: assigning a non-empty native container to a key and reading the key
back yields a typed handle of the matching kind whose contents equal the
original container; the write is one batch whose commands are the delete of
any existing value followed by the per-element mutations (right-pushes for a
list, adds for a set, one bulk hash-set for a dict, score-adds for a sorted
set), and the empties registry entry for the key is removed. -/
theorem c1_nonempty_container_roundtrip (st : ProxyState) (k : String) (v : PyVal)
    (kind : ContainerKind) (hkind : REV_TYPE_MAP v = some kind)
    (hne : v.isFalsy = false) (hnd : ContainerNodup v) :
    (Proxy.setitem st k v).2 = Option.none ∧
    (Proxy.setitem st k v).1.store =
      execPipeline st.store
        ((if st.store.existsKey k then [Cmd.del k] else []) ++ elementCmds k v) ∧
    (Proxy.setitem st k v).1.empties = aerase st.empties k ∧
    (∃ st2, Proxy.getitemStr (Proxy.setitem st k v).1 k = .ok (.handle kind k, st2) ∧
      readContents st2.store k kind = v) := by
  have hS0 : (execPipeline st.store (if st.store.existsKey k then [Cmd.del k] else [])).lookup k
      = Option.none := exec_delCmds_lookup st.store k
  cases v with
  | int n => simp [REV_TYPE_MAP] at hkind
  | str s => simp [REV_TYPE_MAP] at hkind
  | pynone => simp [REV_TYPE_MAP] at hkind
  | other b => simp [REV_TYPE_MAP] at hkind
  | list xs =>
      simp only [REV_TYPE_MAP, Option.some.injEq] at hkind
      subst hkind
      simp only [PyVal.isFalsy] at hne
      have hset : Proxy.setitem st k (PyVal.list xs) =
          (⟨execPipeline st.store
              ((if st.store.existsKey k then [Cmd.del k] else []) ++ elementCmds k (PyVal.list xs)),
            aerase st.empties k⟩, Option.none) := by
        simp [Proxy.setitem, PyVal.isFalsy, hne]
      rw [hset]
      refine ⟨rfl, rfl, rfl, ?_⟩
      cases xs with
      | nil => simp at hne
      | cons x rest =>
          have hfold : (execPipeline st.store
              ((if st.store.existsKey k then [Cmd.del k] else []) ++ elementCmds k (PyVal.list (x :: rest)))).lookup k
              = some (RVal.list (x :: rest)) := by
            rw [execPipeline_append]
            simp only [elementCmds, execPipeline, List.foldl_map, Cmd.applyTo]
            exact rpush_foldl_create k x rest _ hS0
          obtain ⟨st2, hget, hst2⟩ := getitemStr_of_lookup_some
            ⟨execPipeline st.store
              ((if st.store.existsKey k then [Cmd.del k] else []) ++ elementCmds k (PyVal.list (x :: rest))),
              aerase st.empties k⟩ k (RVal.list (x :: rest)) hfold
          exact ⟨st2, by simpa [viewOf] using hget,
            by simp [readContents, Handle.listContents, hst2, hfold]⟩
  | set xs =>
      simp only [REV_TYPE_MAP, Option.some.injEq] at hkind
      subst hkind
      simp only [PyVal.isFalsy] at hne
      have hset : Proxy.setitem st k (PyVal.set xs) =
          (⟨execPipeline st.store
              ((if st.store.existsKey k then [Cmd.del k] else []) ++ elementCmds k (PyVal.set xs)),
            aerase st.empties k⟩, Option.none) := by
        simp [Proxy.setitem, PyVal.isFalsy, hne]
      rw [hset]
      refine ⟨rfl, rfl, rfl, ?_⟩
      cases xs with
      | nil => simp at hne
      | cons x rest =>
          have hfold : (execPipeline st.store
              ((if st.store.existsKey k then [Cmd.del k] else []) ++ elementCmds k (PyVal.set (x :: rest)))).lookup k
              = some (RVal.set (x :: rest)) := by
            rw [execPipeline_append]
            simp only [elementCmds, execPipeline, List.foldl_map, Cmd.applyTo]
            exact sadd_foldl_create k x rest _ hS0 hnd
          obtain ⟨st2, hget, hst2⟩ := getitemStr_of_lookup_some
            ⟨execPipeline st.store
              ((if st.store.existsKey k then [Cmd.del k] else []) ++ elementCmds k (PyVal.set (x :: rest))),
              aerase st.empties k⟩ k (RVal.set (x :: rest)) hfold
          exact ⟨st2, by simpa [viewOf] using hget,
            by simp [readContents, Handle.setContents, hst2, hfold]⟩
  | dict fs =>
      simp only [REV_TYPE_MAP, Option.some.injEq] at hkind
      subst hkind
      simp only [PyVal.isFalsy] at hne
      have hset : Proxy.setitem st k (PyVal.dict fs) =
          (⟨execPipeline st.store
              ((if st.store.existsKey k then [Cmd.del k] else []) ++ elementCmds k (PyVal.dict fs)),
            aerase st.empties k⟩, Option.none) := by
        simp [Proxy.setitem, PyVal.isFalsy, hne]
      rw [hset]
      refine ⟨rfl, rfl, rfl, ?_⟩
      have hfold : (execPipeline st.store
          ((if st.store.existsKey k then [Cmd.del k] else []) ++ elementCmds k (PyVal.dict fs))).lookup k
          = some (RVal.hash fs) := by
        rw [execPipeline_append]
        simp only [elementCmds, execPipeline, List.foldl_cons, List.foldl_nil, Cmd.applyTo]
        exact hmset_lookup_none _ k fs hS0 hnd
      obtain ⟨st2, hget, hst2⟩ := getitemStr_of_lookup_some
        ⟨execPipeline st.store
          ((if st.store.existsKey k then [Cmd.del k] else []) ++ elementCmds k (PyVal.dict fs)),
          aerase st.empties k⟩ k (RVal.hash fs) hfold
      exact ⟨st2, by simpa [viewOf] using hget,
        by simp [readContents, Handle.dictContents, hst2, hfold]⟩
  | zset es =>
      simp only [REV_TYPE_MAP, Option.some.injEq] at hkind
      subst hkind
      simp only [PyVal.isFalsy] at hne
      have hset : Proxy.setitem st k (PyVal.zset es) =
          (⟨execPipeline st.store
              ((if st.store.existsKey k then [Cmd.del k] else []) ++ elementCmds k (PyVal.zset es)),
            aerase st.empties k⟩, Option.none) := by
        simp [Proxy.setitem, PyVal.isFalsy, hne]
      rw [hset]
      refine ⟨rfl, rfl, rfl, ?_⟩
      cases es with
      | nil => simp at hne
      | cons p rest =>
          have hfold : (execPipeline st.store
              ((if st.store.existsKey k then [Cmd.del k] else []) ++ elementCmds k (PyVal.zset (p :: rest)))).lookup k
              = some (RVal.zset (p :: rest)) := by
            rw [execPipeline_append]
            simp only [elementCmds, execPipeline, List.foldl_map, Cmd.applyTo]
            exact zadd_foldl_create k p rest _ hS0 hnd
          obtain ⟨st2, hget, hst2⟩ := getitemStr_of_lookup_some
            ⟨execPipeline st.store
              ((if st.store.existsKey k then [Cmd.del k] else []) ++ elementCmds k (PyVal.zset (p :: rest))),
              aerase st.empties k⟩ k (RVal.zset (p :: rest)) hfold
          exact ⟨st2, by simpa [viewOf] using hget,
            by simp [readContents, Handle.zsetContents, hst2, hfold]⟩

/-- Witness for C1: a two-element set written to a fresh key on an empty
store. -/
theorem c1_nonempty_container_roundtrip_witness :
    (Proxy.setitem ⟨⟨[]⟩, []⟩ "x" (PyVal.set ["a", "b"])).2 = Option.none ∧
    (Proxy.setitem ⟨⟨[]⟩, []⟩ "x" (PyVal.set ["a", "b"])).1.store =
      execPipeline (⟨[]⟩ : Store)
        ((if (⟨[]⟩ : Store).existsKey "x" then [Cmd.del "x"] else []) ++
          elementCmds "x" (PyVal.set ["a", "b"])) ∧
    (Proxy.setitem ⟨⟨[]⟩, []⟩ "x" (PyVal.set ["a", "b"])).1.empties = aerase [] "x" ∧
    (∃ st2, Proxy.getitemStr (Proxy.setitem ⟨⟨[]⟩, []⟩ "x" (PyVal.set ["a", "b"])).1 "x" =
        .ok (.handle ContainerKind.set "x", st2) ∧
      readContents st2.store "x" ContainerKind.set = PyVal.set ["a", "b"]) :=
  c1_nonempty_container_roundtrip ⟨⟨[]⟩, []⟩ "x" (PyVal.set ["a", "b"])
    ContainerKind.set rfl rfl (by decide)

/-- C7 counterexample: with one matching key holding the non-integer string
value, pattern iteration yields the decoded text — not a typed handle — so the
sequence does not contain one typed handle per matching key. -/
theorem c7_counterexample :
    Proxy.multikey ⟨⟨[("a", RVal.str "hello")]⟩, []⟩ "*" =
      .ok ([GetResult.text "hello"], ⟨⟨[("a", RVal.str "hello")]⟩, []⟩) ∧
    GetResult.isHandle (GetResult.text "hello") = false :=
  ⟨rfl, rfl⟩

/-- C7 (amended): pattern iteration yields a single-pass sequence with exactly
one result per key matching the pattern at enumeration time — a container
handle or integer handle for such keys, the decoded text for other
string-typed keys — leaving the store unchanged; on the namespaced view the
supplied pattern goes to the underlying proxy's key listing raw, without the
template applied (each listed key is then template-expanded for its access). -/
theorem c7_multikey_per_key (st : ProxyState) (pattern : String) :
    (∃ rs st2, Proxy.multikey st pattern = .ok (rs, st2) ∧ st2.store = st.store ∧
      List.Forall₂ (fun k r => ∃ v, st.store.lookup k = some v ∧ r = viewOf v k)
        (st.store.keys pattern) rs) ∧
    (∀ t : Template, Namespaced.multikey t st pattern =
      Proxy.multikeyOver st ((st.store.keys pattern).map t.format)) := by
  constructor
  · exact multikeyOver_spec (st.store.keys pattern) st
      (fun k hk => lookup_isSome_of_mem_keys st.store pattern k hk)
  · intro t
    rfl

/-- C10 counterexample: on a store whose single matching key holds non-integer
text, item access on a Glob key yields a sequence whose element is the decoded
text, not a typed handle. -/
theorem c10_counterexample :
    Proxy.getitem ⟨⟨[("b", RVal.str "x")]⟩, []⟩ (PKey.glob "?") =
      .ok (.multi [GetResult.text "x"], ⟨⟨[("b", RVal.str "x")]⟩, []⟩) ∧
    GetResult.isHandle (GetResult.text "x") = false :=
  ⟨rfl, rfl⟩

/-- C10 (amended): item access on a Glob-marked key never raises a missing-key
error and never returns a single handle: it returns the pattern-iteration
sequence, one result per key currently matching the pattern (a typed handle
for container- or integer-valued keys, decoded text otherwise, determined by
the store alone — the glob key itself is never looked up in the empties
registry nor dispatched through the per-key type table). -/
theorem c10_glob_dispatch (st : ProxyState) (g : String) :
    ∃ rs st2, Proxy.getitem st (.glob g) = .ok (.multi rs, st2) ∧ st2.store = st.store ∧
      List.Forall₂ (fun k r => ∃ v, st.store.lookup k = some v ∧ r = viewOf v k)
        (st.store.keys g) rs := by
  obtain ⟨rs, st2, hmk, hst, hfa⟩ :=
    multikeyOver_spec (st.store.keys g) st
      (fun k hk => lookup_isSome_of_mem_keys st.store g k hk)
  exact ⟨rs, st2,
    by simp [Proxy.getitem, Proxy.multikey, Bind.bind, Except.bind, hmk], hst, hfa⟩

/-- C8: the delete operation resolves a pattern to the currently matching keys
(a plain key to itself), removes every resolved key from the empties registry,
issues one batched store delete of all of them, and afterwards containment is
false for every resolved key. -/
theorem c8_delete_resolved (st : ProxyState) (kp : PKey) :
    (Proxy.delitem st kp).1.empties =
      (resolvedKeys st kp).foldl (fun e key => aerase e key) st.empties ∧
    (∀ key ∈ resolvedKeys st kp,
      alookup (Proxy.delitem st kp).1.empties key = Option.none) ∧
    (resolvedKeys st kp ≠ [] →
      (Proxy.delitem st kp).1.store = st.store.delMany (resolvedKeys st kp)) ∧
    (∀ key ∈ resolvedKeys st kp, Proxy.contains (Proxy.delitem st kp).1 key = false) := by
  by_cases hke : (resolvedKeys st kp).isEmpty
  · have hnil : resolvedKeys st kp = [] := by simpa [List.isEmpty_iff] using hke
    refine ⟨by simp [Proxy.delitem, hke], ?_, ?_, ?_⟩
    · intro key hk
      rw [hnil] at hk
      simp at hk
    · intro hne
      exact absurd hnil hne
    · intro key hk
      rw [hnil] at hk
      simp at hk
  · have hdel : Proxy.delitem st kp =
        (⟨st.store.delMany (resolvedKeys st kp),
          (resolvedKeys st kp).foldl (fun e key => aerase e key) st.empties⟩, Option.none) := by
      simp [Proxy.delitem, hke]
    rw [hdel]
    refine ⟨rfl, ?_, fun _ => rfl, ?_⟩
    · intro key hk
      exact foldl_aerase_of_mem _ _ _ hk
    · intro key hk
      simp [Proxy.contains, Store.existsKey,
        Store.lookup_delMany_of_mem st.store _ key hk,
        foldl_aerase_of_mem _ st.empties key hk]

/-- Witness for C8 on a concrete state: deleting a plain key that is present
in both the store and the registry makes containment false. -/
theorem c8_delete_resolved_witness :
    Proxy.contains
      (Proxy.delitem ⟨⟨[("a", RVal.str "1")]⟩, [("a", ContainerKind.list)]⟩ (PKey.str "a")).1
      "a" = false :=
  (c8_delete_resolved ⟨⟨[("a", RVal.str "1")]⟩, [("a", ContainerKind.list)]⟩
    (PKey.str "a")).2.2.2 "a" (by simp [resolvedKeys])

/-- C9: access of a string-typed key takes the string branch — before the
empties registry is consulted and leaving the state untouched — decoding by
integer parse first and falling back to the decoded text; assigning an integer
stores its decimal string, and reading it back yields the integer handle whose
value equals the original integer. -/
theorem c9_string_int_decode (st : ProxyState) (k : String) :
    (∀ s, st.store.lookup k = some (RVal.str s) →
      Proxy.getitemStr st k = .ok (int_or_str s k, st)) ∧
    (∀ s, int_or_str s k =
      if (intParse s).isSome then GetResult.intHandle k else GetResult.text s) ∧
    (∀ n : Int, (Proxy.setitem st k (PyVal.int n)).2 = Option.none ∧
      Proxy.getitemStr (Proxy.setitem st k (PyVal.int n)).1 k =
        .ok (GetResult.intHandle k, (Proxy.setitem st k (PyVal.int n)).1) ∧
      Handle.intValue (Proxy.setitem st k (PyVal.int n)).1.store k = some n) := by
  refine ⟨?_, ?_, ?_⟩
  · intro s h
    simp [Proxy.getitemStr, h]
  · intro s
    unfold int_or_str
    cases hp : intParse s <;> simp [hp]
  · intro n
    have hlook : (Proxy.setitem st k (PyVal.int n)).1.store.lookup k =
        some (RVal.str (intRepr n)) := by
      simp [Proxy.setitem, Store.setStr, Store.lookup, alookup]
    refine ⟨rfl, ?_, ?_⟩
    · have : int_or_str (intRepr n) k = GetResult.intHandle k := by
        unfold int_or_str
        rw [intParse_intRepr]
      simp [Proxy.getitemStr, hlook, this]
    · simp [Handle.intValue, Store.getStr, hlook, intParse_intRepr]

/-- Witness for C9: reading a string-typed key with a stale registry entry
takes the string branch untouched; a round-tripped negative integer compares
equal. -/
theorem c9_string_int_decode_witness :
    Proxy.getitemStr ⟨⟨[("k", RVal.str "12")]⟩, [("k", ContainerKind.dict)]⟩ "k" =
      .ok (int_or_str "12" "k", ⟨⟨[("k", RVal.str "12")]⟩, [("k", ContainerKind.dict)]⟩) ∧
    Handle.intValue
      (Proxy.setitem ⟨⟨[("k", RVal.str "12")]⟩, [("k", ContainerKind.dict)]⟩ "k"
        (PyVal.int (-5))).1.store "k" = some (-5) :=
  ⟨(c9_string_int_decode ⟨⟨[("k", RVal.str "12")]⟩, [("k", ContainerKind.dict)]⟩ "k").1 "12" rfl,
    ((c9_string_int_decode ⟨⟨[("k", RVal.str "12")]⟩, [("k", ContainerKind.dict)]⟩ "k").2.2 (-5)).2.2⟩
